import Mathlib

/-!
Shallow embedding of the `channels` library (TopOTheHourBot/channels).

The repository contains two channel implementations:

* `src/channels/core.py` — an asyncio channel with a bounded FIFO buffer,
  FIFO queues of blocked senders (`_putters`) and receivers (`_getters`)
  represented as `asyncio.Future`s, a strict `close()` (raises
  `RuntimeError` on a second close), blocking `send`, and a
  drain-then-fail `recv`.
* `src/channels/channel.py` — a simpler channel whose buffer is a
  `deque` with `maxlen` (so `send` never blocks and discards the oldest
  value at capacity), a single `_receiver` future, a hard-close `recv`
  (raises `Closure` whenever `_closed` is set, buffered values or not),
  an idempotent `close()` returning `self`, and an `open()` method that
  resets `_closed` to false.

Futures are modelled by an explicit state (`pending`, result-set,
cancelled, exception-set), mirroring how `asyncio.Future` reacts to
`set_result` / `set_exception` / `cancel` / `done()` / `cancelled()`.
Coroutine methods with suspension points (`send`, `recv`) are modelled
as their atomic segments between suspension points: the call segment,
the resume-after-wake segment, and the cancellation-cleanup segment,
exactly as written in the Python source.
-/

namespace Channels

/-- State of an `asyncio.Future`: `pending` before any completion,
`woken` after `set_result(None)`, `cancelled` after `cancel()`, and
`closedExc` after `set_exception(Closure)`. -/
inductive FutState : Type
  | pending
  | woken
  | cancelled
  | closedExc
deriving DecidableEq

/-- `Future.done()`: true in every state but `pending`. -/
def FutState.done : FutState → Bool
  | .pending => false
  | _ => true

/-- A future with an identity, as stored in a waiter queue.  The `id`
models Python object identity, used by `deque.remove`. -/
structure Fut : Type where
  id : Nat
  state : FutState
deriving DecidableEq

/-- `Future.cancel()`: a no-op on a done future, otherwise transitions
to `cancelled`. -/
def futCancel (f : Fut) : Fut :=
  if f.state.done then f else { f with state := .cancelled }

/-- `Channel._wake_next` (core.py lines 47-52): pop waiters from the
left until one that is not done is found; set its result and stop.
Returns the remaining queue together with the woken future (handed back
to the suspended task that owns it), if any. -/
def wakeNext : List Fut → List Fut × Option Fut
  | [] => ([], none)
  | w :: ws =>
    if w.state.done then wakeNext ws
    else (ws, some { w with state := .woken })

/-- `deque.remove(x)`: remove the first element with the given identity
(no-op models the `except ValueError: pass` when absent). -/
def removeById (fid : Nat) : List Fut → List Fut
  | [] => []
  | f :: fs => if f.id = fid then fs else f :: removeById fid fs

/-- The waiter loops of `Channel.close` (core.py lines 71-74):
`waiter.set_exception(Closure)` for each queued waiter in order.
`set_exception` on a done future raises `InvalidStateError`; the loop
then stops with earlier futures already mutated.  The boolean records
whether `InvalidStateError` was raised. -/
def setClosurePartial : List Fut → List Fut × Bool
  | [] => ([], false)
  | f :: fs =>
    if f.state.done then (f :: fs, true)
    else
      let r := setClosurePartial fs
      ({ f with state := .closedExc } :: r.1, r.2)

/-- Number of pending (wakeable) waiters in a queue. -/
def pendingCount (q : List Fut) : Nat :=
  q.countP (fun f => f.state = FutState.pending)

/-! ## The channel of `src/channels/core.py` -/

/-- State of a `core.py` `Channel`: `_max_size`, `_getters`, `_putters`,
`_values`, and whether `_closer` is done. -/
structure CoreChannel (α : Type) : Type where
  maxSize : Int
  getters : List Fut
  putters : List Fut
  values : List α
  closerDone : Bool
deriving DecidableEq

variable {α : Type}

/-- `Channel.size` / `len(self._values)`. -/
def CoreChannel.size (ch : CoreChannel α) : Nat := ch.values.length

/-- `Channel.closed`: `self._closer.done()`. -/
def CoreChannel.closed (ch : CoreChannel α) : Bool := ch.closerDone

/-- `Channel.empty()`: `not self`, i.e. the buffer has length zero. -/
def CoreChannel.isEmpty (ch : CoreChannel α) : Bool := ch.size = 0

/-- `Channel.full()` (core.py lines 131-135). -/
def CoreChannel.isFull (ch : CoreChannel α) : Bool :=
  if ch.maxSize ≤ 0 then false else ch.maxSize ≤ (ch.size : Int)

/-- A freshly constructed channel: `Channel(max_size)`. -/
def coreInit (α : Type) (c : Int) : CoreChannel α :=
  ⟨c, [], [], [], false⟩

/-- Outcome of one atomic segment of `send`: the coroutine raised
(`Closure` propagated), suspended on a newly queued putter future, or
returned. -/
inductive SendOut (α : Type) : Type
  | raised (ch : CoreChannel α)
  | suspended (ch : CoreChannel α) (fid : Nat)
  | completed (ch : CoreChannel α)
deriving DecidableEq

/-- The channel state after a `send` segment. -/
def SendOut.chan : SendOut α → CoreChannel α
  | .raised ch => ch
  | .suspended ch _ => ch
  | .completed ch => ch

/-- Outcome of one atomic segment of `recv`. -/
inductive RecvOut (α : Type) : Type
  | raised (ch : CoreChannel α)
  | suspended (ch : CoreChannel α) (fid : Nat)
  | completed (ch : CoreChannel α) (v : α)
deriving DecidableEq

/-- The channel state after a `recv` segment. -/
def RecvOut.chan : RecvOut α → CoreChannel α
  | .raised ch => ch
  | .suspended ch _ => ch
  | .completed ch _ => ch

/-- Whether a `recv` segment suspended (queued a getter). -/
def RecvOut.isSusp : RecvOut α → Bool
  | .suspended _ _ => true
  | _ => false

/-- First atomic segment of `Channel.send` (core.py lines 77-99), up to
the first suspension point: raise `Closure` if closed; if full, append a
fresh pending putter and suspend; otherwise append the value and wake
the next getter. -/
def coreSendStart (v : α) (fid : Nat) (ch : CoreChannel α) : SendOut α :=
  if ch.closed then .raised ch
  else if ch.isFull then
    .suspended { ch with putters := ch.putters ++ [⟨fid, .pending⟩] } fid
  else
    .completed { ch with
      values := ch.values ++ [v],
      getters := (wakeNext ch.getters).1 }

/-- Resumption segment of `Channel.send` after its putter future was
woken: re-check `full()` (the `while` loop), re-queueing a fresh putter
if still full, else append and wake a getter.  No closed re-check occurs
in the loop body. -/
def coreSendResume (v : α) (fid : Nat) (ch : CoreChannel α) : SendOut α :=
  if ch.isFull then
    .suspended { ch with putters := ch.putters ++ [⟨fid, .pending⟩] } fid
  else
    .completed { ch with
      values := ch.values ++ [v],
      getters := (wakeNext ch.getters).1 }

/-- Cleanup segment of `Channel.send` when `await putter` raises
(core.py lines 89-97): cancel the putter, remove it from the queue, and
if the channel is not full and the putter was not cancelled (it had been
woken), wake the next pending putter.  Returns the new channel state and
the future woken by the re-trigger, if any. -/
def coreSendCleanup (f : Fut) (ch : CoreChannel α) : CoreChannel α × Option Fut :=
  let f1 := futCancel f
  let ps := removeById f.id ch.putters
  if !ch.isFull && !(f1.state = FutState.cancelled) then
    let w := wakeNext ps
    ({ ch with putters := w.1 }, w.2)
  else
    ({ ch with putters := ps }, none)

/-- First atomic segment of `Channel.recv` (core.py lines 102-125):
raise `Closure` iff closed and empty; suspend on a fresh getter if
empty; otherwise pop the oldest value and wake the next putter. -/
def coreRecvStart (fid : Nat) (ch : CoreChannel α) : RecvOut α :=
  if ch.closed && ch.isEmpty then .raised ch
  else
    match ch.values with
    | [] => .suspended { ch with getters := ch.getters ++ [⟨fid, .pending⟩] } fid
    | v :: rest =>
      .completed { ch with values := rest, putters := (wakeNext ch.putters).1 } v

/-- Resumption segment of `Channel.recv` after its getter future was
woken: the `while self.empty()` loop re-checks emptiness. -/
def coreRecvResume (fid : Nat) (ch : CoreChannel α) : RecvOut α :=
  match ch.values with
  | [] => .suspended { ch with getters := ch.getters ++ [⟨fid, .pending⟩] } fid
  | v :: rest =>
    .completed { ch with values := rest, putters := (wakeNext ch.putters).1 } v

/-- Cleanup segment of `Channel.recv` when `await getter` raises
(core.py lines 114-122), mirroring `coreSendCleanup` for the getter
queue. -/
def coreRecvCleanup (f : Fut) (ch : CoreChannel α) : CoreChannel α × Option Fut :=
  let f1 := futCancel f
  let gs := removeById f.id ch.getters
  if !ch.isEmpty && !(f1.state = FutState.cancelled) then
    let w := wakeNext gs
    ({ ch with getters := w.1 }, w.2)
  else
    ({ ch with getters := gs }, none)

/-- Errors `Channel.close` can raise: `RuntimeError` when the channel
was already closed (core.py line 70), `InvalidStateError` when
`set_exception` hits an already-done queued waiter future. -/
inductive CloseErr : Type
  | runtimeError
  | invalidState
deriving DecidableEq

/-- `Channel.close` (core.py lines 55-74), as a total function returning
the (possibly partially mutated) state and the raised error, if any.
`self._closer.set_result(None)` happens first, so the channel counts as
closed even when a later `set_exception` raises. -/
def coreClose (ch : CoreChannel α) : CoreChannel α × Option CloseErr :=
  if ch.closerDone then (ch, some .runtimeError)
  else
    let ch1 := { ch with closerDone := true }
    let p := setClosurePartial ch1.putters
    if p.2 then ({ ch1 with putters := p.1 }, some .invalidState)
    else
      let g := setClosurePartial ch1.getters
      if g.2 then ({ ch1 with putters := p.1, getters := g.1 }, some .invalidState)
      else ({ ch1 with putters := p.1, getters := g.1 }, none)

/-- One atomic segment of any public operation of the `core.py`
channel, executed between two suspension points of the cooperative
scheduler.  Every interleaving of `send` / `recv` / `close` calls and
cancellations is a chain of these steps. -/
inductive CoreStep : CoreChannel α → CoreChannel α → Prop
  | sendStart (v : α) (fid : Nat) (ch : CoreChannel α) :
      CoreStep ch (coreSendStart v fid ch).chan
  | sendResume (v : α) (fid : Nat) (ch : CoreChannel α) :
      CoreStep ch (coreSendResume v fid ch).chan
  | sendCleanup (f : Fut) (ch : CoreChannel α) :
      CoreStep ch (coreSendCleanup f ch).1
  | recvStart (fid : Nat) (ch : CoreChannel α) :
      CoreStep ch (coreRecvStart fid ch).chan
  | recvResume (fid : Nat) (ch : CoreChannel α) :
      CoreStep ch (coreRecvResume fid ch).chan
  | recvCleanup (f : Fut) (ch : CoreChannel α) :
      CoreStep ch (coreRecvCleanup f ch).1
  | closeStep (ch : CoreChannel α) :
      CoreStep ch (coreClose ch).1

/-! ## The channel of `src/channels/channel.py` -/

/-- State of a `channel.py` `Channel`: `_buffer` (a `deque` with
optional `maxlen`), the single `_receiver` future, and `_closed`. -/
structure PyChannel (α : Type) : Type where
  maxSize : Option Nat
  buffer : List α
  receiver : Option Fut
  closed : Bool
deriving DecidableEq

/-- `deque.append` with a `maxlen`: when the deque is at `maxlen`, the
oldest (leftmost) element is discarded to make room. -/
def dequeAppend (maxlen : Option Nat) (buf : List α) (v : α) : List α :=
  match maxlen with
  | none => buf ++ [v]
  | some m => (buf ++ [v]).drop (buf.length + 1 - m)

/-- Outcome of `channel.py` `Channel.send` (a plain, non-suspending
method). -/
inductive PySendOut (α : Type) : Type
  | raised
  | sent (ch : PyChannel α)
deriving DecidableEq

/-- `Channel.send` (channel.py lines 62-75): raise `Closure` if closed;
append to the `maxlen` deque (discarding the oldest value when at
maximum size, per its own docstring); set the result of the pending
receiver future, if one exists and is not done. -/
def pySend (v : α) (ch : PyChannel α) : PySendOut α :=
  if ch.closed then .raised
  else
    let ch1 := { ch with buffer := dequeAppend ch.maxSize ch.buffer v }
    match ch1.receiver with
    | some f =>
      if f.state.done then .sent ch1
      else .sent { ch1 with receiver := some { f with state := .woken } }
    | none => .sent ch1

/-- Outcome of the first atomic segment of `channel.py`
`Channel.recv`. -/
inductive PyRecvOut (α : Type) : Type
  | raised
  | violation
  | suspended (ch : PyChannel α)
  | completed (ch : PyChannel α) (v : α)
deriving DecidableEq

/-- First atomic segment of `Channel.recv` (channel.py lines 77-99):
raise `Closure` whenever `_closed` is set — regardless of buffered
content (hard close); in debug builds raise `RuntimeError` if another
`recv` is active; suspend on a fresh `_receiver` future while the
buffer is empty; otherwise pop the oldest value. -/
def pyRecvStart (fid : Nat) (ch : PyChannel α) : PyRecvOut α :=
  if ch.closed then .raised
  else if ch.receiver.isSome then .violation
  else
    match ch.buffer with
    | [] => .suspended { ch with receiver := some ⟨fid, .pending⟩ }
    | v :: rest => .completed { ch with buffer := rest } v

/-- `Channel.close` (channel.py lines 106-115): set `_closed`, raise
`Closure` into the active receiver future if pending, return `self`
(never an error, never a boolean). -/
def pyClose (ch : PyChannel α) : PyChannel α :=
  let ch1 := { ch with closed := true }
  match ch1.receiver with
  | some f =>
    if f.state.done then ch1
    else { ch1 with receiver := some { f with state := .closedExc } }
  | none => ch1

/-- `Channel.open` (channel.py lines 101-104): reset `_closed` to
false and return `self`. -/
def pyOpen (ch : PyChannel α) : PyChannel α :=
  { ch with closed := false }

/-- `Channel.clear` (channel.py lines 117-123). -/
def pyClear (ch : PyChannel α) : PyChannel α :=
  { ch with buffer := [] }

/-! ## The `Merger` of `src/channels/stream.py`

A source stream is modelled by the list of outcomes its successive
`anext` tasks produce: `Pull.val v` for a value, `Pull.err` for an
unexpected exception; the list ending models `StopAsyncIteration`.

The scheduler is left nondeterministic, as the code's
wait-for-first-completed loop demands.  Tasks complete at arbitrary
times: each completion's `todo_to_done` callback moves the task from
the `todo` dict to the `done` dict (so `done` iterates in completion
order) and resolves `wake`.  Completions can occur at any suspension
point — during the consumer's processing of yielded values as well as
at `await wake` — and `await wake` returns as soon as at least one
pull has completed since the previous cycle's `done.clear()`, possibly
with further completions slipping in before the loop resumes.  The
model therefore lets an arbitrary non-empty subset of the in-flight
pulls, in an arbitrary order, form the processed `done` batch of each
cycle.  `done` is empty between cycles (it is cleared at the end of
every processing phase and refilled only afterwards), so it is not
part of the inter-cycle configuration. -/

/-- Result of one `anext` task: a value, or an unexpected exception. -/
inductive Pull (α : Type) : Type
  | val (v : α)
  | err
deriving DecidableEq

/-- One merger source: the results of its successive pulls. -/
abbrev MSource (α : Type) := List (Pull α)

/-- Configuration of `Merger.__aiter__` between loop cycles: the
`_streams` deque of sources awaiting a dispatch, the in-flight `todo`
pulls, the `results` buffer filled by the previous wake, and the values
yielded so far. -/
structure MCfg (α : Type) : Type where
  streams : List (MSource α)
  todo : List (MSource α)
  results : List α
  yielded : List α
deriving DecidableEq

/-- Processing of the `done` map (stream.py lines 318-337), one task at
a time in completion order: exhaustion drops the source; an error is
either logged-and-dropped together with its source (`suppress`, the
`continue` skips the `streams.append`) or aborts the whole merge
(`none`); a value re-queues the source's tail and buffers the value. -/
def processDone (sup : Bool) : List (MSource α) → Option (List (MSource α) × List α)
  | [] => some ([], [])
  | [] :: rest => processDone sup rest
  | (Pull.err :: _) :: rest =>
    if sup then processDone sup rest else none
  | (Pull.val v :: tl) :: rest =>
    match processDone sup rest with
    | none => none
    | some (ss, vs) => some (tl :: ss, v :: vs)

/-- Final outcome of a merger iteration: a normal end with the yielded
values, or a propagated failure, carrying the in-flight pulls the code
cancelled (`for task in todo: task.cancel()`) on its way out. -/
inductive MFin (α : Type) : Type
  | ended (out : List α)
  | failed (cancelled : List (MSource α))
deriving DecidableEq

/-- All executions of `Merger.__aiter__` (stream.py lines 296-339) from
a configuration, indexed by the concatenation of the batches the
consumer adds during the drains, down to their final outcome.

One `step` is one cycle of the `while True` loop: dispatch every queued
source (all of `todo ++ streams` is then in flight); drain and yield
the buffered results — the consumer runs here and may `add` the sources
in `batch`; then wait for at least one in-flight pull to complete
(`await wake`, wait-for-first-completed).  `doneL` is the batch of
pulls that have completed by the time the loop resumes — a non-empty
selection of the in-flight pulls, listed in completion order, which is
arbitrary relative to dispatch order — and `todo3` the pulls still in
flight.  `processDone` folds `doneL` exactly as the `for task, stream
in done.items()` loop does, producing the re-queued tails and the new
result buffer.

`fail` is the default-mode failure branch of that loop: a pull in the
completed batch raised, every pull still in flight is cancelled, and
the exception propagates, ending the merge with nothing further
yielded.

`ended` is the `if not (todo or done): return` exit: nothing queued and
nothing in flight.  No batch is added then, because the consumer only
runs during yields, and a pending yield implies its source's re-pull is
in flight. -/
inductive MergerExec (sup : Bool) : MCfg α → List (MSource α) → MFin α → Prop
  | ended (c : MCfg α) :
      c.todo ++ c.streams = [] →
      MergerExec sup c [] (.ended (c.yielded ++ c.results))
  | fail (c : MCfg α) (doneL todo3 : List (MSource α)) :
      doneL ≠ [] →
      (c.todo ++ c.streams).Perm (doneL ++ todo3) →
      processDone sup doneL = none →
      MergerExec sup c [] (.failed todo3)
  | step (c : MCfg α) (batch doneL todo3 tails : List (MSource α))
      (vals : List α) (added : List (MSource α)) (fin : MFin α) :
      doneL ≠ [] →
      (c.todo ++ c.streams).Perm (doneL ++ todo3) →
      processDone sup doneL = some (tails, vals) →
      MergerExec sup ⟨batch ++ tails, todo3, vals, c.yielded ++ c.results⟩ added fin →
      MergerExec sup c (batch ++ added) fin

/-- A source none of whose pulls fail. -/
def okSource (l : List α) : MSource α := l.map Pull.val

/-- The values a source can still contribute: its values up to (not
including) its first failing pull. -/
def okValues : MSource α → List α
  | [] => []
  | Pull.err :: _ => []
  | Pull.val v :: tl => v :: okValues tl

/-- Total multiset of values a list of sources can still contribute. -/
def potSum (ls : List (MSource α)) : Multiset α :=
  (ls.map (fun l => ((okValues l : List α) : Multiset α))).sum

/-! ## `Stream.zip` / `Series.zip` -/

/-- The loop of `Stream.zip` (stream.py lines 154-165) and `Series.zip`
(series.py lines 178-189) for two sources: gather one `anext` from
each; the first `StopAsyncIteration` ends the iteration (the loop
returns normally, with no error). -/
def zipPull {β : Type} : List α → List β → List (α × β)
  | a :: as, b :: bs => (a, b) :: zipPull as bs
  | _, _ => []

/-! ## `Stream.timeout` -/

/-- A composed stream, as built by the operators of `stream.py`: a base
producer whose successive pulls take the recorded durations, or a
`finite_timeout` layer (stream.py lines 62-75) over a parent. -/
inductive StreamRep (α : Type) : Type
  | source (vals : List (ℚ × α))
  | finTimeout (parent : StreamRep α) (delay : ℚ) (first : Bool)
deriving DecidableEq

/-- `asyncio.wait_for(anext(self), delay)` applied to every remaining
pull: a pull whose duration exceeds `delay` raises `TimeoutError`,
which `finite_timeout` turns into ordinary exhaustion. -/
def timeoutTake (delay : ℚ) : List (ℚ × α) → List (ℚ × α)
  | [] => []
  | (t, v) :: rest =>
    if t ≤ delay then (t, v) :: timeoutTake delay rest else []

/-- Semantics of `Stream.finite_timeout(delay, first=first)`: when
`first` is false, the first pull is awaited without a deadline. -/
def finTimeoutRun (delay : ℚ) (first : Bool) (xs : List (ℚ × α)) : List (ℚ × α) :=
  if first then timeoutTake delay xs
  else
    match xs with
    | [] => []
    | x :: rest => x :: timeoutTake delay rest

/-- The timed values a composed stream yields. -/
def streamSem : StreamRep α → List (ℚ × α)
  | .source vals => vals
  | .finTimeout p d f => finTimeoutRun d f (streamSem p)

/-- `Stream.timeout(delay, first=first)` (stream.py lines 77-87): with
`delay is None` return `self` unchanged ("Reduces layers of
composition"); otherwise wrap in `finite_timeout`. -/
def streamTimeout (s : StreamRep α) (delay : Option ℚ) (first : Bool) : StreamRep α :=
  match delay with
  | none => s
  | some d => .finTimeout s d first

/-! ## Lemmas about waiter queues -/

lemma wakeNext_spec (ds : List Fut) (p : Fut) (rest : List Fut)
    (hds : ∀ d ∈ ds, d.state.done = true) (hp : p.state = .pending) :
    wakeNext (ds ++ p :: rest) = (rest, some { p with state := .woken }) := by
  induction ds with
  | nil =>
    simp only [List.nil_append, wakeNext]
    rw [hp]
    simp [FutState.done]
  | cons d ds ih =>
    simp only [List.cons_append, wakeNext]
    rw [hds d (by simp)]
    simp only [if_true]
    exact ih (fun x hx => hds x (by simp [hx]))

lemma pendingCount_wakeNext (q : List Fut) :
    pendingCount (wakeNext q).1 = pendingCount q - 1 := by
  induction q with
  | nil => simp [wakeNext, pendingCount]
  | cons w ws ih =>
    by_cases h : w.state.done = true
    · have hw : ¬(w.state = FutState.pending) := by
        intro he; rw [he] at h; simp [FutState.done] at h
      simp only [wakeNext, h, if_true]
      rw [ih]
      simp [pendingCount, List.countP_cons, hw]
    · have hw : w.state = FutState.pending := by
        cases hs : w.state <;> simp [hs, FutState.done] at h ⊢
      simp only [wakeNext, h, if_false]
      simp [pendingCount, List.countP_cons, hw]

lemma wakeNext_id_not_mem (q : List Fut) (n : Nat)
    (h : n ∉ q.map Fut.id) : n ∉ ((wakeNext q).1).map Fut.id := by
  induction q with
  | nil => simp [wakeNext]
  | cons w ws ih =>
    simp only [List.map_cons, List.mem_cons, not_or] at h
    by_cases hd : w.state.done = true
    · simp only [wakeNext, hd, if_true]
      exact ih h.2
    · simp only [wakeNext, hd, if_false]
      exact h.2

lemma removeById_not_mem (q : List Fut) (n : Nat)
    (h : (q.map Fut.id).count n ≤ 1) : n ∉ (removeById n q).map Fut.id := by
  induction q with
  | nil => simp [removeById]
  | cons f fs ih =>
    by_cases hf : f.id = n
    · simp only [removeById, hf, if_true]
      intro hmem
      simp only [List.mem_map] at hmem
      obtain ⟨g, hg, hgn⟩ := hmem
      have h2 : (((f :: fs).map Fut.id).count n) = ((fs.map Fut.id).count n) + 1 := by
        simp [hf]
      have h3 : 1 ≤ (fs.map Fut.id).count n := by
        refine List.one_le_count_iff.mpr ?_
        exact hgn ▸ List.mem_map_of_mem Fut.id hg
      omega
    · simp only [removeById, hf, if_false]
      simp only [List.map_cons, List.mem_cons, not_or]
      refine ⟨fun he => hf he.symm, ?_⟩
      refine ih ?_
      have := h
      simp only [List.map_cons, List.count_cons] at this
      omega

lemma setClosurePartial_all_pending (q : List Fut)
    (h : ∀ f ∈ q, f.state = .pending) :
    setClosurePartial q = (q.map (fun f => { f with state := FutState.closedExc }), false) := by
  induction q with
  | nil => simp [setClosurePartial]
  | cons f fs ih =>
    have hf : f.state = FutState.pending := h f (by simp)
    have hd : f.state.done = false := by rw [hf]; rfl
    simp only [setClosurePartial, hd]
    rw [ih (fun x hx => h x (by simp [hx]))]
    simp

/-! ## Lemmas about the `core.py` channel's atomic segments -/

lemma isFull_false_lt {ch : CoreChannel α} (hpos : 0 < ch.maxSize)
    (h : ch.isFull = false) : (ch.size : Int) < ch.maxSize := by
  unfold CoreChannel.isFull at h
  rw [if_neg (by omega)] at h
  simp only [decide_eq_false_iff_not, not_le] at h
  exact h

lemma coreSendStart_chan (v : α) (fid : Nat) (ch : CoreChannel α) :
    (coreSendStart v fid ch).chan.maxSize = ch.maxSize ∧
    (coreSendStart v fid ch).chan.closerDone = ch.closerDone ∧
    ((coreSendStart v fid ch).chan.values = ch.values ∨
      (ch.isFull = false ∧ (coreSendStart v fid ch).chan.values = ch.values ++ [v])) := by
  unfold coreSendStart
  split
  · exact ⟨rfl, rfl, Or.inl rfl⟩
  · split
    · exact ⟨rfl, rfl, Or.inl rfl⟩
    · next h => exact ⟨rfl, rfl, Or.inr ⟨by simpa using h, rfl⟩⟩

lemma coreSendResume_chan (v : α) (fid : Nat) (ch : CoreChannel α) :
    (coreSendResume v fid ch).chan.maxSize = ch.maxSize ∧
    (coreSendResume v fid ch).chan.closerDone = ch.closerDone ∧
    ((coreSendResume v fid ch).chan.values = ch.values ∨
      (ch.isFull = false ∧ (coreSendResume v fid ch).chan.values = ch.values ++ [v])) := by
  unfold coreSendResume
  split
  · exact ⟨rfl, rfl, Or.inl rfl⟩
  · next h => exact ⟨rfl, rfl, Or.inr ⟨by simpa using h, rfl⟩⟩

lemma coreSendCleanup_chan (f : Fut) (ch : CoreChannel α) :
    (coreSendCleanup f ch).1.maxSize = ch.maxSize ∧
    (coreSendCleanup f ch).1.closerDone = ch.closerDone ∧
    (coreSendCleanup f ch).1.values = ch.values ∧
    (coreSendCleanup f ch).1.getters = ch.getters := by
  unfold coreSendCleanup
  dsimp only
  split <;> exact ⟨rfl, rfl, rfl, rfl⟩

lemma coreRecvStart_chan (fid : Nat) (ch : CoreChannel α) :
    (coreRecvStart fid ch).chan.maxSize = ch.maxSize ∧
    (coreRecvStart fid ch).chan.closerDone = ch.closerDone ∧
    (coreRecvStart fid ch).chan.values.length ≤ ch.values.length := by
  unfold coreRecvStart
  split
  · exact ⟨rfl, rfl, le_refl _⟩
  · split
    · exact ⟨rfl, rfl, le_refl _⟩
    · next v rest heq => exact ⟨rfl, rfl, by rw [heq]; simp [RecvOut.chan]⟩

lemma coreRecvResume_chan (fid : Nat) (ch : CoreChannel α) :
    (coreRecvResume fid ch).chan.maxSize = ch.maxSize ∧
    (coreRecvResume fid ch).chan.closerDone = ch.closerDone ∧
    (coreRecvResume fid ch).chan.values.length ≤ ch.values.length := by
  unfold coreRecvResume
  split
  · exact ⟨rfl, rfl, le_refl _⟩
  · next v rest heq => exact ⟨rfl, rfl, by rw [heq]; simp [RecvOut.chan]⟩

lemma coreRecvCleanup_chan (f : Fut) (ch : CoreChannel α) :
    (coreRecvCleanup f ch).1.maxSize = ch.maxSize ∧
    (coreRecvCleanup f ch).1.closerDone = ch.closerDone ∧
    (coreRecvCleanup f ch).1.values = ch.values ∧
    (coreRecvCleanup f ch).1.putters = ch.putters := by
  unfold coreRecvCleanup
  dsimp only
  split <;> exact ⟨rfl, rfl, rfl, rfl⟩

lemma coreClose_fields (ch : CoreChannel α) :
    (coreClose ch).1.maxSize = ch.maxSize ∧
    (coreClose ch).1.values = ch.values ∧
    (ch.closerDone = true → (coreClose ch).1 = ch) ∧
    (ch.closerDone = false → (coreClose ch).1.closerDone = true) := by
  unfold coreClose
  split
  · next h => exact ⟨rfl, rfl, fun _ => rfl, fun hf => by rw [hf] at h; cases h⟩
  · next hnc =>
    dsimp only
    split
    · exact ⟨rfl, rfl, fun ht => absurd ht hnc, fun _ => rfl⟩
    · split
      · exact ⟨rfl, rfl, fun ht => absurd ht hnc, fun _ => rfl⟩
      · exact ⟨rfl, rfl, fun ht => absurd ht hnc, fun _ => rfl⟩

lemma coreClose_closerDone (ch : CoreChannel α) :
    ch.closerDone = true → (coreClose ch).1.closerDone = true := by
  intro h
  rw [(coreClose_fields ch).2.2.1 h]
  exact h

/-- Every atomic segment preserves the capacity, keeps the closed flag
monotone, and keeps the buffer within a positive capacity. -/
lemma coreStep_invariant {ch ch' : CoreChannel α} (h : CoreStep ch ch') :
    ch'.maxSize = ch.maxSize ∧
    (ch.closerDone = true → ch'.closerDone = true) ∧
    (0 < ch.maxSize → (ch.size : Int) ≤ ch.maxSize → (ch'.size : Int) ≤ ch.maxSize) := by
  cases h with
  | sendStart v fid ch =>
    obtain ⟨hm, hc, hv⟩ := coreSendStart_chan v fid ch
    refine ⟨hm, fun hcd => hc.trans hcd, fun hpos hsz => ?_⟩
    rcases hv with hv | ⟨hful, hv⟩
    · simp [CoreChannel.size, hv] at hsz ⊢; exact hsz
    · have := isFull_false_lt hpos hful
      simp [CoreChannel.size, hv] at this ⊢
      omega
  | sendResume v fid ch =>
    obtain ⟨hm, hc, hv⟩ := coreSendResume_chan v fid ch
    refine ⟨hm, fun hcd => hc.trans hcd, fun hpos hsz => ?_⟩
    rcases hv with hv | ⟨hful, hv⟩
    · simp [CoreChannel.size, hv] at hsz ⊢; exact hsz
    · have := isFull_false_lt hpos hful
      simp [CoreChannel.size, hv] at this ⊢
      omega
  | sendCleanup f ch =>
    obtain ⟨hm, hc, hv, _⟩ := coreSendCleanup_chan f ch
    exact ⟨hm, fun hcd => hc.trans hcd, fun _ hsz => by
      simpa [CoreChannel.size, hv] using hsz⟩
  | recvStart fid ch =>
    obtain ⟨hm, hc, hv⟩ := coreRecvStart_chan fid ch
    refine ⟨hm, fun hcd => hc.trans hcd, fun _ hsz => ?_⟩
    simp only [CoreChannel.size] at hsz ⊢
    omega
  | recvResume fid ch =>
    obtain ⟨hm, hc, hv⟩ := coreRecvResume_chan fid ch
    refine ⟨hm, fun hcd => hc.trans hcd, fun _ hsz => ?_⟩
    simp only [CoreChannel.size] at hsz ⊢
    omega
  | recvCleanup f ch =>
    obtain ⟨hm, hc, hv, _⟩ := coreRecvCleanup_chan f ch
    exact ⟨hm, fun hcd => hc.trans hcd, fun _ hsz => by
      simpa [CoreChannel.size, hv] using hsz⟩
  | closeStep ch =>
    obtain ⟨hm, hv, _, _⟩ := coreClose_fields ch
    exact ⟨hm, coreClose_closerDone ch, fun _ hsz => by
      simp only [CoreChannel.size, hv]; exact hsz⟩

/-! ## Lemmas about the `Merger` model -/

lemma potSum_cons (l : MSource α) (ls : List (MSource α)) :
    potSum (l :: ls) = (okValues l : Multiset α) + potSum ls := by
  simp [potSum]

lemma potSum_append (a b : List (MSource α)) :
    potSum (a ++ b) = potSum a + potSum b := by
  simp [potSum]

lemma potSum_perm {l1 l2 : List (MSource α)} (h : l1.Perm l2) :
    potSum l1 = potSum l2 := by
  unfold potSum
  exact List.Perm.sum_eq (h.map _)

/-- Processing one wake's worth of completed pulls conserves the values
each source can still contribute: the buffered values plus the potential
of the re-queued tails equal the potential of the processed sources. -/
lemma processDone_pot (sup : Bool) :
    ∀ (todo ss : List (MSource α)) (vs : List α),
      processDone sup todo = some (ss, vs) →
      (vs : Multiset α) + potSum ss = potSum todo := by
  intro todo
  induction todo with
  | nil =>
    intro ss vs h
    simp only [processDone, Option.some_inj, Prod.mk.injEq] at h
    obtain ⟨rfl, rfl⟩ := h
    simp [potSum]
  | cons hd rest ih =>
    intro ss vs h
    cases hd with
    | nil =>
      simp only [processDone] at h
      have := ih ss vs h
      rw [potSum_cons]
      simpa [okValues] using this
    | cons p tl =>
      cases p with
      | err =>
        simp only [processDone] at h
        split at h
        · have := ih ss vs h
          rw [potSum_cons]
          simpa [okValues] using this
        · cases h
      | val v =>
        simp only [processDone] at h
        cases hrec : processDone sup rest with
        | none => rw [hrec] at h; cases h
        | some pair =>
          obtain ⟨ss1, vs1⟩ := pair
          rw [hrec] at h
          simp only [Option.some_inj, Prod.mk.injEq] at h
          obtain ⟨rfl, rfl⟩ := h
          rw [potSum_cons, potSum_cons]
          simp only [okValues]
          rw [← Multiset.cons_coe, ← Multiset.cons_coe,
            Multiset.cons_add, Multiset.cons_add]
          congr 1
          rw [← ih ss1 vs1 hrec]
          exact add_left_comm _ _ _

/-- A pull list processed under suppression never aborts: every failing
pull is logged and dropped. -/
lemma processDone_suppress_some :
    ∀ (l : List (MSource α)), processDone true l ≠ none := by
  intro l
  induction l with
  | nil => simp [processDone]
  | cons hd rest ih =>
    cases hd with
    | nil => simpa only [processDone] using ih
    | cons p tl =>
      cases p with
      | err => simpa only [processDone, if_true] using ih
      | val v =>
        simp only [processDone]
        cases hrec : processDone true rest with
        | none => exact absurd hrec ih
        | some pair => obtain ⟨ss, vs⟩ := pair; simp

/-- Conservation along every execution that ends normally: the merged
output equals everything the starting configuration and the sources
added along the way could contribute, whatever the completion
schedule. -/
lemma mergerExec_ended_pot (sup : Bool) :
    ∀ (c : MCfg α) (added : List (MSource α)) (fin : MFin α),
      MergerExec sup c added fin →
      ∀ out, fin = .ended out →
      (out : Multiset α) =
        (c.yielded : Multiset α) + (c.results : Multiset α) +
          potSum c.todo + potSum c.streams + potSum added := by
  intro c added fin h
  induction h with
  | ended c hnil =>
    intro out hout
    injection hout with hout
    subst hout
    obtain ⟨h1, h2⟩ := List.append_eq_nil.mp hnil
    rw [h1, h2, ← Multiset.coe_add]
    simp [potSum]
  | fail c doneL todo3 hne hperm hpd =>
    intro out hout
    cases hout
  | step c batch doneL todo3 tails vals added fin hne hperm hpd hexec ih =>
    intro out hout
    rw [ih out hout]
    have hdp := processDone_pot sup doneL tails vals hpd
    have hps : potSum c.todo + potSum c.streams = potSum doneL + potSum todo3 := by
      have hpp := potSum_perm hperm
      rwa [potSum_append, potSum_append] at hpp
    simp only
    rw [← Multiset.coe_add, potSum_append, potSum_append,
      add_assoc ((c.yielded : Multiset α) + ↑c.results) (potSum c.todo)
        (potSum c.streams),
      hps, ← hdp]
    abel

lemma okValues_okSource (l : List α) : okValues (okSource l) = l := by
  induction l with
  | nil => rfl
  | cons a t ih => simp only [okSource, List.map_cons, okValues] at *; rw [ih]

lemma potSum_map_okSource (L : List (List α)) :
    potSum (L.map okSource) = (L.flatten : Multiset α) := by
  induction L with
  | nil => simp [potSum]
  | cons b t ih =>
    simp only [List.map_cons, potSum_cons, okValues_okSource, ih,
      List.flatten_cons, ← Multiset.coe_add]

/-! ## Lemmas about `zip` and `recv` -/

lemma zipPull_eq_zip {β : Type} (l1 : List α) (l2 : List β) :
    zipPull l1 l2 = l1.zip l2 := by
  induction l1 generalizing l2 with
  | nil => cases l2 <;> rfl
  | cons a as ih =>
    cases l2 with
    | nil => rfl
    | cons b bs => simp [zipPull, ih]

lemma recvStart_nonempty (fid : Nat) (ch : CoreChannel α) (v : α) (rest : List α)
    (h : ch.values = v :: rest) :
    coreRecvStart fid ch =
      .completed { ch with values := rest, putters := (wakeNext ch.putters).1 } v := by
  have hemp : ch.isEmpty = false := by
    simp [CoreChannel.isEmpty, CoreChannel.size, h]
  unfold coreRecvStart
  rw [hemp]
  simp only [Bool.and_false, Bool.false_eq_true, if_false, h]

lemma recvStart_closed_empty (fid : Nat) (ch : CoreChannel α)
    (h : ch.closerDone = true) (hv : ch.values = []) :
    coreRecvStart fid ch = .raised ch := by
  have h1 : ch.closed = true := h
  have h2 : ch.isEmpty = true := by
    simp [CoreChannel.isEmpty, CoreChannel.size, hv]
  unfold coreRecvStart
  rw [h1, h2]
  rfl

lemma recvStart_closed_no_suspend (fid : Nat) (ch : CoreChannel α)
    (h : ch.closerDone = true) : (coreRecvStart fid ch).isSusp = false := by
  cases hv : ch.values with
  | nil =>
    rw [recvStart_closed_empty fid ch h hv]
    rfl
  | cons v rest =>
    rw [recvStart_nonempty fid ch v rest hv]
    rfl

lemma pySend_sent (v : α) (ch ch1 : PyChannel α) (h : pySend v ch = .sent ch1) :
    ch1.buffer = dequeAppend ch.maxSize ch.buffer v ∧ ch1.closed = ch.closed := by
  unfold pySend at h
  split at h
  · cases h
  · dsimp only at h
    split at h
    · split at h
      · cases h; exact ⟨rfl, rfl⟩
      · cases h; exact ⟨rfl, rfl⟩
    · cases h; exact ⟨rfl, rfl⟩

lemma pyClose_fields (ch : PyChannel α) :
    (pyClose ch).closed = true ∧ (pyClose ch).buffer = ch.buffer := by
  unfold pyClose
  dsimp only
  split
  · split
    · exact ⟨rfl, rfl⟩
    · exact ⟨rfl, rfl⟩
  · exact ⟨rfl, rfl⟩

/-! ## The claims -/

/-- C1: corrected.  For the `core.py` `Channel` the claim holds: any
channel reachable from a fresh one with capacity C > 0 never buffers
more than C values (conjunct one); `send` on a full open channel
suspends the sender on the putter queue, leaving the buffer untouched —
no buffered value is discarded (conjunct two); a non-full `send`
appends the value and wakes one blocked receiver when one is pending
(conjunct three).  The `channel.py` `Channel` keeps the ≤ C bound
(conjunct four) but violates the blocking and no-discard parts of the
claim: its `send` returns synchronously and discards the oldest
buffered value at capacity — see the counterexample. -/
theorem c1_bounded_send :
    (∀ (β : Type) (c : Int), 0 < c →
      ∀ ch : CoreChannel β, Relation.ReflTransGen CoreStep (coreInit β c) ch →
        (ch.size : Int) ≤ c) ∧
    (∀ (β : Type) (v : β) (fid : Nat) (ch : CoreChannel β),
      ch.closed = false → ch.isFull = true →
      coreSendStart v fid ch =
        .suspended { ch with putters := ch.putters ++ [⟨fid, .pending⟩] } fid) ∧
    (∀ (β : Type) (v : β) (fid : Nat) (ch : CoreChannel β),
      ch.closed = false → ch.isFull = false →
      ∃ ch1, coreSendStart v fid ch = .completed ch1 ∧
        ch1.values = ch.values ++ [v] ∧
        (0 < pendingCount ch.getters →
          pendingCount ch1.getters + 1 = pendingCount ch.getters)) ∧
    (∀ (β : Type) (v : β) (m : Nat) (ch ch1 : PyChannel β),
      ch.maxSize = some m → pySend v ch = .sent ch1 →
      ch1.buffer.length ≤ m) := by
  refine ⟨?_, ?_, ?_, ?_⟩
  · intro β c hc ch hreach
    have key : ch.maxSize = c ∧ (ch.size : Int) ≤ c := by
      induction hreach with
      | refl => exact ⟨rfl, by simp [coreInit, CoreChannel.size]; omega⟩
      | tail hr hstep ih =>
        obtain ⟨hm, _, hsz⟩ := coreStep_invariant hstep
        refine ⟨hm.trans ih.1, ?_⟩
        rw [← ih.1]
        exact hsz (ih.1 ▸ hc) (ih.1 ▸ ih.2)
    exact key.2
  · intro β v fid ch hcl hfl
    unfold coreSendStart
    rw [hcl, hfl]
    rfl
  · intro β v fid ch hcl hfl
    have hstep : coreSendStart v fid ch =
        .completed { ch with
          values := ch.values ++ [v],
          getters := (wakeNext ch.getters).1 } := by
      unfold coreSendStart
      rw [hcl, hfl]
      rfl
    refine ⟨_, hstep, rfl, ?_⟩
    intro hpend
    simp only [pendingCount_wakeNext]
    omega
  · intro β v m ch ch1 hms hsend
    obtain ⟨hbuf, _⟩ := pySend_sent v ch ch1 hsend
    rw [hbuf, hms]
    simp only [dequeAppend, List.length_drop, List.length_append,
      List.length_singleton]
    omega

/-- C1 counterexample: the `channel.py` channel with capacity 1 already
holding 0 accepts `send 1` synchronously (no suspension) and discards
the buffered 0 — the claim's "send on a full channel blocks" and "no
value already buffered is discarded by a send" are both false on it. -/
theorem c1_counterexample :
    pySend 1 (⟨some 1, [0], none, false⟩ : PyChannel ℕ) =
      .sent ⟨some 1, [1], none, false⟩ := by decide

theorem c1_bounded_send_witness :
    ((coreInit ℕ 1).size : Int) ≤ 1 ∧
    coreSendStart 5 0 (⟨1, [], [], [9], false⟩ : CoreChannel ℕ) =
      .suspended ⟨1, [], [⟨0, FutState.pending⟩], [9], false⟩ 0 :=
  ⟨c1_bounded_send.1 ℕ 1 (by decide) _ Relation.ReflTransGen.refl,
   by
    have h := c1_bounded_send.2.1 ℕ 5 0
      (⟨1, [], [], [9], false⟩ : CoreChannel ℕ) (by decide) (by decide)
    simpa using h⟩

/-- C2: corrected.  After `close()`, the `core.py` channel behaves as
the claim says: `send` raises immediately (conjunct one) and `recv`
drains — it pops and returns the oldest buffered value while the buffer
is non-empty (conjunct two) and raises exactly when the buffer is empty
at call time (conjunct three).  The `channel.py` channel's `send` also
raises `Closure` immediately once closed (conjunct five), but its
`recv` hard-closes: it raises whenever the closed flag is set, buffered
values or not (conjunct four and the counterexample), so the claim's
"every Channel" is too strong on the recv side. -/
theorem c2_close_policy :
    (∀ (β : Type) (v : β) (fid : Nat) (ch : CoreChannel β),
      ch.closerDone = true → coreSendStart v fid ch = .raised ch) ∧
    (∀ (β : Type) (fid : Nat) (ch : CoreChannel β) (v : β) (rest : List β),
      ch.closerDone = true → ch.values = v :: rest →
      coreRecvStart fid ch =
        .completed { ch with values := rest, putters := (wakeNext ch.putters).1 } v) ∧
    (∀ (β : Type) (fid : Nat) (ch : CoreChannel β),
      ch.closerDone = true → ch.values = [] → coreRecvStart fid ch = .raised ch) ∧
    (∀ (β : Type) (fid : Nat) (ch : PyChannel β),
      ch.closed = true → pyRecvStart fid ch = .raised) ∧
    (∀ (β : Type) (v : β) (ch : PyChannel β),
      ch.closed = true → pySend v ch = .raised) := by
  refine ⟨?_, ?_, ?_, ?_, ?_⟩
  · intro β v fid ch h
    unfold coreSendStart
    have : ch.closed = true := h
    rw [this]
    rfl
  · intro β fid ch v rest hcl hv
    exact recvStart_nonempty fid ch v rest hv
  · intro β fid ch hcl hv
    exact recvStart_closed_empty fid ch hcl hv
  · intro β fid ch h
    unfold pyRecvStart
    rw [h]
    rfl
  · intro β v ch h
    unfold pySend
    rw [h]
    rfl

/-- C2 counterexample: a closed `channel.py` channel still buffering the
value 5 refuses `recv` outright instead of draining it first. -/
theorem c2_counterexample :
    pyRecvStart 0 (⟨none, [5], none, true⟩ : PyChannel ℕ) = .raised := by decide

theorem c2_close_policy_witness :
    coreRecvStart 0 (⟨0, [], [], [7], true⟩ : CoreChannel ℕ) =
      .completed (⟨0, [], [], [], true⟩ : CoreChannel ℕ) 7 := by
  have h := c2_close_policy.2.1 ℕ 0
    (⟨0, [], [], [7], true⟩ : CoreChannel ℕ) 7 [] rfl rfl
  simpa [wakeNext] using h

/-- C3: corrected.  When every queued waiter future is still pending at
the moment of closure, `close()` completes without error, transitions
the channel to closed, and raises `Closure` into every queued sender and
receiver waiter exactly once each — each queue maps pointwise, so no
waiter is woken twice or skipped; `send` calls arriving afterwards raise
synchronously and `recv` calls arriving afterwards never enqueue a
waiter.  The claim's further assertion that `close()` completes without
error even when a queued waiter future is already cancelled or completed
is false: `set_exception` on a done future raises `InvalidStateError`
(see the counterexample). -/
theorem c3_close_wakes_pending :
    ∀ (β : Type) (ch : CoreChannel β),
      ch.closerDone = false →
      (∀ f ∈ ch.putters, f.state = FutState.pending) →
      (∀ f ∈ ch.getters, f.state = FutState.pending) →
      (coreClose ch).2 = none ∧
      (coreClose ch).1.closerDone = true ∧
      (coreClose ch).1.putters =
        ch.putters.map (fun f => { f with state := FutState.closedExc }) ∧
      (coreClose ch).1.getters =
        ch.getters.map (fun f => { f with state := FutState.closedExc }) ∧
      (∀ (v : β) (fid : Nat),
        coreSendStart v fid (coreClose ch).1 = .raised (coreClose ch).1) ∧
      (∀ fid : Nat, (coreRecvStart fid (coreClose ch).1).isSusp = false) := by
  intro β ch hcl hp hg
  have hclosed : (coreClose ch).1.closerDone = true :=
    (coreClose_fields ch).2.2.2 hcl
  have hput := setClosurePartial_all_pending ch.putters hp
  have hget := setClosurePartial_all_pending ch.getters hg
  have hrun : coreClose ch =
      (CoreChannel.mk ch.maxSize
        (ch.getters.map (fun f => { f with state := FutState.closedExc }))
        (ch.putters.map (fun f => { f with state := FutState.closedExc }))
        ch.values true, none) := by
    unfold coreClose
    rw [if_neg (by simp [hcl])]
    dsimp only
    rw [hput, hget]
    rfl
  refine ⟨by rw [hrun], hclosed, by rw [hrun], by rw [hrun], ?_, ?_⟩
  · intro v fid
    unfold coreSendStart
    have : (coreClose ch).1.closed = true := hclosed
    rw [this]
    rfl
  · intro fid
    exact recvStart_closed_no_suspend fid _ hclosed

/-- C3 counterexample: closing a channel whose putter queue holds an
already-cancelled waiter future raises `InvalidStateError` out of
`close()` instead of completing without error. -/
theorem c3_counterexample :
    (coreClose (⟨0, [], [⟨7, FutState.cancelled⟩], [], false⟩ : CoreChannel ℕ)).2 =
      some CloseErr.invalidState := by decide

theorem c3_close_wakes_pending_witness :
    (coreClose (⟨0, [⟨2, FutState.pending⟩], [⟨1, FutState.pending⟩], [], false⟩ :
        CoreChannel ℕ)).2 = none ∧
    (coreClose (⟨0, [⟨2, FutState.pending⟩], [⟨1, FutState.pending⟩], [], false⟩ :
        CoreChannel ℕ)).1.putters = [⟨1, FutState.closedExc⟩] := by
  have h := c3_close_wakes_pending ℕ
    (⟨0, [⟨2, FutState.pending⟩], [⟨1, FutState.pending⟩], [], false⟩ : CoreChannel ℕ)
    rfl (by decide) (by decide)
  exact ⟨h.1, by rw [h.2.2.1]; rfl⟩

/-- C4: corrected.  The `core.py` `close()` is strict, not idempotent:
a second close raises `RuntimeError` ("channel has already been
closed") rather than returning false (conjuncts one and two, and the
counterexample).  The `channel.py` `close()` is idempotent — closing an
already-closed channel is harmless and raises nothing (conjunct three)
— but it reports nothing: it returns the channel itself, not a
did-transition boolean. -/
theorem c4_close_strict :
    (∀ (β : Type) (ch : CoreChannel β), ch.closerDone = true →
      coreClose ch = (ch, some CloseErr.runtimeError)) ∧
    (∀ (β : Type) (ch : CoreChannel β), ch.closerDone = false →
      (coreClose (coreClose ch).1).2 = some CloseErr.runtimeError) ∧
    (∀ (β : Type) (ch : PyChannel β),
      (pyClose ch).closed = true ∧
      (pyClose (pyClose ch)).closed = true ∧
      (pyClose ch).buffer = ch.buffer) := by
  have hstrict : ∀ (β : Type) (ch : CoreChannel β), ch.closerDone = true →
      coreClose ch = (ch, some CloseErr.runtimeError) := by
    intro β ch h
    unfold coreClose
    rw [if_pos h]
  refine ⟨hstrict, ?_, ?_⟩
  · intro β ch h
    rw [hstrict β (coreClose ch).1 ((coreClose_fields ch).2.2.2 h)]
  · intro β ch
    exact ⟨(pyClose_fields ch).1, (pyClose_fields (pyClose ch)).1,
      (pyClose_fields ch).2⟩

/-- C4 counterexample: the second `close()` on a `core.py` channel
raises `RuntimeError` — it does not return false. -/
theorem c4_counterexample :
    (coreClose (coreClose (coreInit ℕ 0)).1).2 = some CloseErr.runtimeError := by
  decide

theorem c4_close_strict_witness :
    coreClose (⟨0, [], [], [], true⟩ : CoreChannel ℕ) =
      ((⟨0, [], [], [], true⟩ : CoreChannel ℕ), some CloseErr.runtimeError) :=
  c4_close_strict.1 ℕ _ rfl

/-- C5: corrected.  The `core.py` channel's closed flag is monotonic
across every atomic segment of every operation (conjunct one).  On the
`channel.py` channel, `send`, `recv`, `close` and `clear` never reset
the flag (conjuncts two to four), but the public `open()` method resets
it to false, reopening a closed channel — the claim's "no operation
reopens" fails there (see the counterexample). -/
theorem c5_closed_monotonic :
    (∀ (β : Type) (ch ch1 : CoreChannel β), CoreStep ch ch1 →
      ch.closerDone = true → ch1.closerDone = true) ∧
    (∀ (β : Type) (v : β) (ch ch1 : PyChannel β),
      pySend v ch = .sent ch1 → ch1.closed = ch.closed) ∧
    (∀ (β : Type) (fid : Nat) (ch ch1 : PyChannel β) (v : β),
      (pyRecvStart fid ch = .suspended ch1 → ch1.closed = ch.closed) ∧
      (pyRecvStart fid ch = .completed ch1 v → ch1.closed = ch.closed)) ∧
    (∀ (β : Type) (ch : PyChannel β),
      (pyClose ch).closed = true ∧ (pyClear ch).closed = ch.closed) := by
  refine ⟨?_, ?_, ?_, ?_⟩
  · intro β ch ch1 hstep
    exact (coreStep_invariant hstep).2.1
  · intro β v ch ch1 hsend
    exact (pySend_sent v ch ch1 hsend).2
  · intro β fid ch ch1 v
    constructor <;> intro h <;>
      (unfold pyRecvStart at h
       repeat' split at h
       all_goals first
         | (cases h; rfl)
         | cases h)
  · intro β ch
    exact ⟨(pyClose_fields ch).1, rfl⟩

/-- C5 counterexample: closing a `channel.py` channel and then calling
its public `open()` method reverts the closed flag to false. -/
theorem c5_counterexample :
    (pyClose (⟨none, [], none, false⟩ : PyChannel ℕ)).closed = true ∧
    (pyOpen (pyClose (⟨none, [], none, false⟩ : PyChannel ℕ))).closed = false := by
  decide

theorem c5_closed_monotonic_witness :
    (coreClose (⟨0, [], [], [], true⟩ : CoreChannel ℕ)).1.closerDone = true :=
  c5_closed_monotonic.1 ℕ _ _ (CoreStep.closeStep _) rfl

/-- C6: confirmed for the `core.py` channel.  The cancellation-cleanup
path of a blocked `recv` never touches the value buffer, so a value sent
while the receiver was blocked stays buffered (conjuncts one and two)
and is returned by the next `recv` (conjunct three); the cancelled
waiter's future is removed from the getter queue (conjunct four); and
when the waiter had already been woken (`set_result`) and the buffer is
non-empty, the cleanup re-triggers `_wake_next`, waking the oldest still
pending getter and dropping the cancelled entries before it (conjunct
five). -/
theorem c6_recv_cancellation_safe :
    ∀ (β : Type) (ch : CoreChannel β) (f : Fut),
      (coreRecvCleanup f ch).1.values = ch.values ∧
      (coreRecvCleanup f ch).1.putters = ch.putters ∧
      (∀ (v : β) (rest : List β) (fid2 : Nat), ch.values = v :: rest →
        ∃ ch2, coreRecvStart fid2 (coreRecvCleanup f ch).1 = .completed ch2 v) ∧
      ((ch.getters.map Fut.id).count f.id ≤ 1 →
        f.id ∉ ((coreRecvCleanup f ch).1.getters.map Fut.id)) ∧
      (∀ (ds rest2 : List Fut) (p : Fut),
        ch.values ≠ [] → f.state = FutState.woken →
        removeById f.id ch.getters = ds ++ p :: rest2 →
        (∀ d ∈ ds, d.state.done = true) → p.state = FutState.pending →
        (coreRecvCleanup f ch).2 = some { p with state := FutState.woken } ∧
        (coreRecvCleanup f ch).1.getters = rest2) := by
  intro β ch f
  obtain ⟨_, _, hval, hput⟩ := coreRecvCleanup_chan f ch
  refine ⟨hval, hput, ?_, ?_, ?_⟩
  · intro v rest fid2 hv
    exact ⟨_, recvStart_nonempty fid2 _ v rest (hval.trans hv)⟩
  · intro hcount
    have hrem := removeById_not_mem ch.getters f.id hcount
    unfold coreRecvCleanup
    dsimp only
    split
    · exact wakeNext_id_not_mem _ _ hrem
    · exact hrem
  · intro ds rest2 p hne hwk hrem hds hp
    have hemp : ch.isEmpty = false := by
      cases hv : ch.values with
      | nil => exact absurd hv hne
      | cons a t => simp [CoreChannel.isEmpty, CoreChannel.size, hv]
    have hcanc : futCancel f = f := by
      unfold futCancel
      rw [hwk]
      rfl
    have hcond : (!ch.isEmpty && !((futCancel f).state = FutState.cancelled : Bool)) = true := by
      rw [hemp, hcanc, hwk]
      rfl
    unfold coreRecvCleanup
    dsimp only
    rw [hcond]
    rw [hrem, wakeNext_spec ds p rest2 hds hp]
    exact ⟨rfl, rfl⟩

theorem c6_recv_cancellation_safe_witness :
    (coreRecvCleanup ⟨1, FutState.woken⟩
      (⟨0, [⟨2, FutState.pending⟩], [], [5], false⟩ : CoreChannel ℕ)).1.values = [5] ∧
    (∃ ch2, coreRecvStart 3 (coreRecvCleanup ⟨1, FutState.woken⟩
      (⟨0, [⟨2, FutState.pending⟩], [], [5], false⟩ : CoreChannel ℕ)).1 =
        .completed ch2 5) ∧
    (coreRecvCleanup ⟨1, FutState.woken⟩
      (⟨0, [⟨2, FutState.pending⟩], [], [5], false⟩ : CoreChannel ℕ)).2 =
        some ⟨2, FutState.woken⟩ := by
  have h := c6_recv_cancellation_safe ℕ
    (⟨0, [⟨2, FutState.pending⟩], [], [5], false⟩ : CoreChannel ℕ) ⟨1, FutState.woken⟩
  refine ⟨h.1, h.2.2.1 5 [] 3 rfl, ?_⟩
  exact (h.2.2.2.2 [] [] ⟨2, FutState.pending⟩ (by decide) rfl (by decide)
    (by intro d hd; cases hd) rfl).1

/-- C7: confirmed.  Whatever the completion schedule — the relation
lets any non-empty subset of the in-flight pulls complete at each wake,
in any order — whenever a merger execution over sources that never
raise ends normally, the multiset of yielded values is exactly the
union of every value of every source, initial or added mid-iteration:
nothing lost, nothing duplicated (conjunct one), and the execution can
end only once nothing is queued and no pull is in flight (the `ended`
constructor's premise).  Conjuncts two and three check the spec's
concrete example on an exhibited execution: merging [1,2] and
[10,20,30] yields exactly the 5-element multiset {1,2,10,20,30}. -/
theorem c7_merger_complete :
    (∀ (β : Type) (sup : Bool) (sources0 added0 : List (List β)) (out : List β),
      MergerExec sup ⟨sources0.map okSource, [], [], []⟩
          (added0.map okSource) (.ended out) →
      (out : Multiset β) =
        (sources0.flatten : Multiset β) + (added0.flatten : Multiset β)) ∧
    MergerExec false (⟨[okSource [1, 2], okSource [10, 20, 30]], [], [], []⟩ : MCfg ℕ)
      [] (.ended [1, 10, 2, 20, 30]) ∧
    ([1, 10, 2, 20, 30] : Multiset ℕ) = ({1, 2, 10, 20, 30} : Multiset ℕ) := by
  refine ⟨?_, ?_, by decide⟩
  · intro β sup sources0 added0 out h
    have hp := mergerExec_ended_pot sup _ _ _ h out rfl
    simp only at hp
    rw [potSum_map_okSource, potSum_map_okSource] at hp
    simpa [potSum] using hp
  · refine .step _ [] [okSource [1, 2], okSource [10, 20, 30]] []
      [[Pull.val 2], [Pull.val 20, Pull.val 30]] [1, 10] [] _
      (by decide) (List.Perm.refl _) (by decide) ?_
    refine .step _ [] [[Pull.val 2], [Pull.val 20, Pull.val 30]] []
      [[], [Pull.val 30]] [2, 20] [] _
      (by decide) (List.Perm.refl _) (by decide) ?_
    refine .step _ [] [[], [Pull.val 30]] [] [[]] [30] [] _
      (by decide) (List.Perm.refl _) (by decide) ?_
    refine .step _ [] [[]] [] [] [] [] _
      (by decide) (List.Perm.refl _) (by decide) ?_
    exact .ended _ rfl

theorem c7_merger_complete_witness :
    ([1, 2, 10, 20, 30] : Multiset ℕ) =
      (([[1, 2]] : List (List ℕ)).flatten : Multiset ℕ) +
        (([[10, 20, 30]] : List (List ℕ)).flatten : Multiset ℕ) := by
  refine c7_merger_complete.1 ℕ false [[1, 2]] [[10, 20, 30]]
    [1, 2, 10, 20, 30] ?_
  refine .step _ [] [okSource [1, 2]] [] [[Pull.val 2]] [1] _ _
    (by decide) (List.Perm.refl _) (by decide) ?_
  refine .step _ [okSource [10, 20, 30]] [[Pull.val 2]] [] [[]] [2] [] _
    (by decide) (List.Perm.refl _) (by decide) ?_
  refine .step _ [] [[Pull.val 10, Pull.val 20, Pull.val 30], []] []
    [[Pull.val 20, Pull.val 30]] [10] [] _
    (by decide) (List.Perm.refl _) (by decide) ?_
  refine .step _ [] [[Pull.val 20, Pull.val 30]] [] [[Pull.val 30]] [20] [] _
    (by decide) (List.Perm.refl _) (by decide) ?_
  refine .step _ [] [[Pull.val 30]] [] [[]] [30] [] _
    (by decide) (List.Perm.refl _) (by decide) ?_
  refine .step _ [] [[]] [] [] [] [] _
    (by decide) (List.Perm.refl _) (by decide) ?_
  exact .ended _ rfl

/-- C9: confirmed for both `Stream.zip` and `Series.zip` (their loops
are identical).  The zipped pull sequence is exactly as long as the
shortest source (shortest wins, conjunct one), its i-th tuple pairs the
i-th element of each source (positional correspondence, conjunct two),
and zipping [1,2,3] with [10,20] yields exactly [(1,10),(2,20)] and
then ends — the loop converts the first `StopAsyncIteration` into a
plain return, so no error escapes (conjunct three). -/
theorem c9_zip_shortest :
    (∀ (β γ : Type) (l1 : List β) (l2 : List γ),
      (zipPull l1 l2).length = min l1.length l2.length) ∧
    (∀ (β γ : Type) (l1 : List β) (l2 : List γ) (i : Nat)
      (h1 : i < l1.length) (h2 : i < l2.length)
      (h : i < (zipPull l1 l2).length),
      (zipPull l1 l2).get ⟨i, h⟩ = (l1.get ⟨i, h1⟩, l2.get ⟨i, h2⟩)) ∧
    zipPull [1, 2, 3] [10, 20] = [(1, 10), (2, 20)] := by
  refine ⟨?_, ?_, by decide⟩
  · intro β γ l1 l2
    rw [zipPull_eq_zip]
    exact List.length_zip l1 l2
  · intro β γ l1 l2
    induction l1 generalizing l2 with
    | nil => intro i h1; cases h1
    | cons a as ih =>
      intro i h1 h2 h
      cases l2 with
      | nil => cases h2
      | cons b bs =>
        cases i with
        | zero => rfl
        | succ j =>
          exact ih bs j (Nat.lt_of_succ_lt_succ h1) (Nat.lt_of_succ_lt_succ h2)
            (Nat.lt_of_succ_lt_succ h)

theorem c9_zip_shortest_witness :
    (zipPull [5] [6]).get ⟨0, by decide⟩ =
      (([5] : List ℕ).get ⟨0, by decide⟩, ([6] : List ℕ).get ⟨0, by decide⟩) :=
  c9_zip_shortest.2.1 ℕ ℕ [5] [6] 0 (by decide) (by decide) (by decide)

/-- C10: confirmed.  `Stream.timeout(None, first=first)` returns the
stream itself — the very same representation, with no `finite_timeout`
wrapping layer — and consequently the resulting stream yields exactly
the same timed values as the original. -/
theorem c10_timeout_none_identity :
    ∀ (β : Type) (s : StreamRep β) (first : Bool),
      streamTimeout s none first = s ∧
      streamSem (streamTimeout s none first) = streamSem s :=
  fun _ _ _ => ⟨rfl, rfl⟩

end Channels
